import Mathlib

/-
Verification of the content-extraction and summarization logic of app.py
(Goopy012/HighSchool).  The Python functions are shallowly embedded as
executable Lean definitions over List Char / String, and the HTMLParser
subclass POnlyParser is embedded as a state machine over the stream of
start-tag / end-tag / data events that HTMLParser feeds to it.
-/

/-! ## Character classes (Python regex classes restricted to the characters
the program manipulates: re \s, terminal marks, token letters). -/

def isSpc (c : Char) : Bool :=
  c = ' ' || c = '\t' || c = '\n' || c = '\r'

def isTerm (c : Char) : Bool :=
  c = '.' || c = '!' || c = '?'

def isTokChar (c : Char) : Bool :=
  ('A' ≤ c && c ≤ 'Z') || ('a' ≤ c && c ≤ 'z') || ('가' ≤ c && c ≤ '힣')

/-! ## Whitespace handling: re.sub(r"\s+", " ", t) and str.strip() -/

def collapseWs : List Char → List Char
  | [] => []
  | [c] => [if isSpc c then ' ' else c]
  | c :: d :: rest =>
    if isSpc c then
      if isSpc d then collapseWs (d :: rest)
      else ' ' :: collapseWs (d :: rest)
    else c :: collapseWs (d :: rest)

def trimWs (l : List Char) : List Char :=
  ((l.dropWhile isSpc).reverse.dropWhile isSpc).reverse

def strTrim (s : String) : String :=
  String.mk (trimWs s.data)

/-! ## Bracket-span removal: re.sub(r"\[[^\]]+\]", " ", t).
The regex engine scans left to right; at a '[' it matches iff at least one
non-']' character follows and is then closed by ']'.  The accumulator holds
the (reversed) candidate content seen since the pending '['; a pending
bracket that reaches the end of input, or closes immediately (empty
content), is emitted unchanged, which is exactly the engine's behaviour
since no match can start inside the bracket-free content. -/

def removeBrAux : List Char → Option (List Char) → List Char
  | [], none => []
  | [], some buf => '[' :: buf.reverse
  | c :: rest, none =>
    if c = '[' then removeBrAux rest (some [])
    else c :: removeBrAux rest none
  | c :: rest, some buf =>
    if c = ']' then
      if buf = [] then '[' :: ']' :: removeBrAux rest none
      else ' ' :: removeBrAux rest none
    else removeBrAux rest (some (c :: buf))

def removeBr (l : List Char) : List Char :=
  removeBrAux l none

/-! ## Sentence splitting:
re.split r'(?<=[.!?])(?=\s|\[)|(?<=다\.)(?=\s|\[)' — both alternatives are
zero-width, so the parts concatenate back to the input; a split point sits
after a terminal mark (or after "다." ) whenever the next character is
whitespace or '['. -/

def consHead (c : Char) : List (List Char) → List (List Char)
  | [] => [[c]]
  | h :: t => (c :: h) :: t

def sentSplit : Option Char → List Char → List (List Char)
  | _, [] => [[]]
  | _, [c] => [[c]]
  | p2, c :: d :: rest =>
    if (isTerm c || (p2 = some '다' && c = '.')) && (isSpc d || d = '[') then
      [c] :: sentSplit (some c) (d :: rest)
    else consHead c (sentSplit (some c) (d :: rest))

def split_sentences (text : List Char) : List (List Char) :=
  let t := trimWs (collapseWs text)
  if t = [] then []
  else
    ((sentSplit none (removeBr t)).map trimWs).filter (fun p => 2 < p.length)

def split_sentencesStr (s : String) : List String :=
  (split_sentences s.data).map String.mk

/-! ## Tokenization: re.findall(r"[A-Za-z가-힣]{2,}"), lowercased.
Maximal runs of token letters of length at least 2. -/

def tokenizeAux : List Char → List Char → List (List Char)
  | acc, [] => if 2 ≤ acc.length then [acc.reverse] else []
  | acc, c :: rest =>
    if isTokChar c then tokenizeAux (c :: acc) rest
    else if 2 ≤ acc.length then acc.reverse :: tokenizeAux [] rest
    else tokenizeAux [] rest

def tokenize (l : List Char) : List String :=
  (tokenizeAux [] l).map (fun r => String.mk (r.map Char.toLower))

/-! ## Stopwords (the fixed multilingual set from app.py). -/

def STOPWORDS : List String :=
  ["그리고", "그러나", "그래서", "또는", "또한", "및", "등", "이", "그", "저",
   "것", "수", "등등", "에", "의", "은", "는", "가", "을", "를", "으로", "로",
   "에서", "부터", "까지", "도", "만", "보다", "보다도",
   "the", "a", "an", "and", "or", "but", "if", "then", "else", "also", "to",
   "of", "in", "on", "at", "for", "from", "with", "by", "as", "is", "are",
   "was", "were", "be", "been", "being", "this", "that", "these", "those"]

def notStop (t : String) : Bool :=
  !(STOPWORDS.contains t)

def filteredTokens (text : List Char) : List String :=
  (tokenize text).filter notStop

/-! ## Counter semantics.  collections.Counter iterates keys in first-insert
order; most_common(k) is a stable descending sort by count, truncated to k.
firstDedup reproduces the key order, byCountDesc the sort relation. -/

def firstDedupAux : List String → List String → List String
  | _, [] => []
  | seen, x :: xs =>
    if seen.contains x then firstDedupAux seen xs
    else x :: firstDedupAux (x :: seen) xs

def firstDedup (l : List String) : List String :=
  firstDedupAux [] l

def byCountDesc (a b : String × Nat) : Prop :=
  b.2 ≤ a.2

instance : DecidableRel byCountDesc := fun a b => by
  unfold byCountDesc; infer_instance

instance : IsTotal (String × Nat) byCountDesc :=
  ⟨fun a b => Nat.le_total b.2 a.2⟩

instance : IsTrans (String × Nat) byCountDesc :=
  ⟨fun _ _ _ h1 h2 => Nat.le_trans h2 h1⟩

def kwItems (text : List Char) : List (String × Nat) :=
  (firstDedup (filteredTokens text)).map
    (fun w => (w, (filteredTokens text).count w))

def keyword_topk (text : List Char) (k : Nat) :
    List String × List (String × Nat) :=
  (((List.insertionSort byCountDesc (kwItems text)).take k).map Prod.fst,
    kwItems text)

/-! ## Summarizer.  MAX_SENT_CHARS is the configurable character budget
(300 in app.py; a value ≤ 0 disables truncation).  Sentence scores sum the
stopword-filtered global token frequencies over the sentence's token
occurrences.  Python's sorted(…, key=scores, reverse=True) on the
duplicate-free index range is stable, hence equal to the unique
permutation sorted by (score descending, index ascending) — the relation
rdesc. -/

def MAX_SENT_CHARS : Int := 300

def truncSent (budget : Int) (s : List Char) : List Char :=
  if (s.length : Int) ≤ budget then s
  else s.take (budget - 1).toNat ++ ['…']

def truncJoin (budget : Int) (out : List Char) : List Char :=
  if budget ≤ 0 then out else truncSent budget out

def sentScore (gtoks : List String) (s : List Char) : Nat :=
  (((tokenize s).filter notStop).map (fun t => gtoks.count t)).sum

def sentScores (text : List Char) : List Nat :=
  (split_sentences text).map (sentScore (filteredTokens text))

def rdesc (scores : List Nat) (i j : Nat) : Prop :=
  scores.getD j 0 < scores.getD i 0 ∨
    (scores.getD i 0 = scores.getD j 0 ∧ i ≤ j)

instance (scores : List Nat) : DecidableRel (rdesc scores) := fun i j => by
  unfold rdesc; infer_instance

def rankedIdx (text : List Char) : List Nat :=
  List.insertionSort (rdesc (sentScores text))
    (List.range (split_sentences text).length)

def topIdx (text : List Char) (max_sentences : Nat) : List Nat :=
  List.insertionSort (fun i j => i ≤ j) ((rankedIdx text).take max_sentences)

def summarize (budget : Int) (text : List Char) (max_sentences : Nat) :
    List Char :=
  let sents := split_sentences text
  if sents.isEmpty then []
  else if sents.length ≤ max_sentences then
    truncJoin budget (List.intercalate [' '] sents)
  else
    let chosen := (topIdx text max_sentences).map (fun i => sents.getD i [])
    let chosen2 := if 0 < budget then chosen.map (truncSent budget) else chosen
    List.intercalate [' '] chosen2

def summarizeStr (text : String) (max_sentences : Nat) : String :=
  String.mk (summarize MAX_SENT_CHARS text.data max_sentences)

/-! ## POnlyParser: the HTMLParser subclass, embedded as a state machine
over the start-tag / end-tag / data event stream that html.parser feeds
to its handle_* hooks.  Attribute values of None and "" coincide after
`self._get`'s `v or ""`, so attrs are (key, value) string pairs. -/

def splitWsAux : List Char → List Char → List String
  | acc, [] => if acc = [] then [] else [String.mk acc.reverse]
  | acc, c :: rest =>
    if isSpc c then
      if acc = [] then splitWsAux [] rest
      else String.mk acc.reverse :: splitWsAux [] rest
    else splitWsAux (c :: acc) rest

def splitWs (s : String) : List String :=
  splitWsAux [] s.data

def getAttr (attrs : List (String × String)) (key : String) : String :=
  match attrs.find? (fun kv => kv.1 = key) with
  | some kv => kv.2
  | none => ""

def classList (attrs : List (String × String)) : List String :=
  splitWs (getAttr attrs "class")

def hasClass (attrs : List (String × String)) (name : String) : Bool :=
  (classList attrs).contains name

def hasAnyClass (attrs : List (String × String)) (names : List String) : Bool :=
  names.any (fun n => (classList attrs).contains n)

def excludedTag (tag : String) (attrs : List (String × String)) : Bool :=
  if tag = "nav" ∨ tag = "footer" ∨ tag = "aside" ∨ tag = "table" then true
  else if tag = "div" then
    hasClass attrs "navbox" || hasClass attrs "mw-references-wrap" ||
      hasClass attrs "hatnote" ||
      (getAttr attrs "id" = "toc" || getAttr attrs "id" = "catlinks")
  else if tag = "ol" ∨ tag = "ul" then hasClass attrs "references"
  else if tag = "table" then hasClass attrs "infobox" || hasClass attrs "navbox"
  else if tag = "sup" then hasClass attrs "reference"
  else false

def isContentRoot (attrs : List (String × String)) : Bool :=
  getAttr attrs "id" = "mw-content-text" || getAttr attrs "id" = "content" ||
    hasAnyClass attrs ["mw-parser-output", "mw-body", "mw-body-content", "content"]

structure PState where
  in_title : Bool
  in_p : Bool
  in_content : Bool
  content_div_depth : Nat
  skip_stack : List String
  exclude_stack : List String
  title_parts : List String
  paras : List String
deriving DecidableEq, Repr

def initState : PState :=
  ⟨false, false, false, 0, [], [], [], []⟩

def handle_starttag (s : PState) (tag : String)
    (attrs : List (String × String)) : PState :=
  if tag = "script" ∨ tag = "style" then
    { s with skip_stack := tag :: s.skip_stack }
  else if excludedTag tag attrs then
    { s with exclude_stack := tag :: s.exclude_stack }
  else
    let s1 :=
      if tag = "div" then
        if isContentRoot attrs then
          { s with content_div_depth := s.content_div_depth + 1,
                   in_content := true }
        else if s.in_content then
          { s with content_div_depth := s.content_div_depth + 1 }
        else s
      else s
    let s2 :=
      if tag = "p" ∧ (s1.in_content = true ∨ s1.content_div_depth = 0) ∧
          s1.exclude_stack = [] then
        { s1 with in_p := true }
      else s1
    if tag = "title" then { s2 with in_title := true } else s2

def handle_endtag (s : PState) (tag : String) : PState :=
  if tag = "script" ∨ tag = "style" then
    match s.skip_stack with
    | t :: rest => if t = tag then { s with skip_stack := rest } else s
    | [] => s
  else
    let s1 :=
      match s.exclude_stack with
      | t :: rest => if t = tag then { s with exclude_stack := rest } else s
      | [] => s
    let s2 :=
      if s1.in_content = true ∧ tag = "div" then
        let d := if 0 < s1.content_div_depth then s1.content_div_depth - 1
                 else s1.content_div_depth
        if d = 0 then { s1 with content_div_depth := d, in_content := false }
        else { s1 with content_div_depth := d }
      else s1
    let s3 := if tag = "p" then { s2 with in_p := false } else s2
    if tag = "title" then { s3 with in_title := false } else s3

def handle_data (s : PState) (data : String) : PState :=
  if !s.skip_stack.isEmpty || !s.exclude_stack.isEmpty then s
  else
    let txt := strTrim data
    if txt = "" then s
    else if s.in_title then { s with title_parts := s.title_parts ++ [txt] }
    else if s.in_p && (s.in_content || s.content_div_depth == 0) then
      { s with paras := s.paras ++ [txt] }
    else s

inductive HEvent where
  | startTag (tag : String) (attrs : List (String × String))
  | endTag (tag : String)
  | dataEv (txt : String)
deriving DecidableEq, Repr

def step (s : PState) : HEvent → PState
  | HEvent.startTag tag attrs => handle_starttag s tag attrs
  | HEvent.endTag tag => handle_endtag s tag
  | HEvent.dataEv txt => handle_data s txt

def runFrom (s : PState) (evs : List HEvent) : PState :=
  evs.foldl step s

def runParser (evs : List HEvent) : PState :=
  runFrom initState evs

def get_title (s : PState) : String :=
  strTrim (String.intercalate " " s.title_parts)

def get_text (s : PState) : String :=
  strTrim (String.intercalate " " s.paras)

/-! ## process_one.  fetch_html performs network I/O; its outcome (or a
parse failure) enters the model as an Except value: error e models an
exception with message e caught by the try/except, ok evs the event
stream of the fetched page. -/

structure DocResult where
  url : String
  title : String
  keywords : String
  summary : String
  ok : Bool
  freq : List (String × Nat)
deriving DecidableEq, Repr

def process_one (url : String) (fetched : Except String (List HEvent))
    (max_sentences : Nat) (topk : Nat) : DocResult :=
  match fetched with
  | Except.error e => ⟨url, "", "", "(에러: " ++ e ++ ")", false, []⟩
  | Except.ok events =>
    let p := runParser events
    let title := get_title p
    let body := get_text p
    if body = "" then ⟨url, title, "", "(본문 추출 실패)", false, []⟩
    else
      let kf := keyword_topk body.data topk
      ⟨url, title, String.intercalate ", " kf.1, summarizeStr body max_sentences,
        true, kf.2⟩

/-! ## Helper lemmas about the parser state machine -/

theorem handle_data_of_exclude (s : PState) (d : String)
    (h : s.exclude_stack ≠ []) : handle_data s d = s := by
  unfold handle_data
  have hne : s.exclude_stack.isEmpty = false := by
    cases hx : s.exclude_stack with
    | nil => exact absurd hx h
    | cons a l => rfl
  simp [hne]

theorem handle_data_of_skip (s : PState) (d : String)
    (h : s.skip_stack ≠ []) : handle_data s d = s := by
  unfold handle_data
  have hne : s.skip_stack.isEmpty = false := by
    cases hx : s.skip_stack with
    | nil => exact absurd hx h
    | cons a l => rfl
  simp [hne]

theorem runFrom_append (s : PState) (l1 l2 : List HEvent) :
    runFrom s (l1 ++ l2) = runFrom (runFrom s l1) l2 :=
  List.foldl_append step s l1 l2

theorem runFrom_data_of_skip (datas : List HEvent) (s : PState)
    (hd : ∀ e ∈ datas, ∃ d, e = HEvent.dataEv d)
    (h : s.skip_stack ≠ []) : runFrom s datas = s := by
  induction datas with
  | nil => rfl
  | cons e rest ih =>
    obtain ⟨d, rfl⟩ := hd e (List.mem_cons_self e rest)
    show runFrom (handle_data s d) rest = s
    rw [handle_data_of_skip s d h]
    exact ih (fun e he => hd e (List.mem_cons_of_mem _ he))

/-! ## Claim C1 -/

/-- Claim C1, counterexample: on the example body with max_sentences = 2,
summarize does not return "Cats are mammals. Cats and dogs are pets.";
the second sentence scores 5 (dogs 2 + mammals 2 + too 1) while the first
scores only 4 (cats 2 + mammals 2), so the first sentence is not selected. -/
theorem C1_counterexample :
    summarizeStr "Cats are mammals. Dogs are mammals too. Cats and dogs are pets." 2 ≠
      "Cats are mammals. Cats and dogs are pets." := by
  decide

/-- Claim C1, amended: for the body "Cats are mammals. Dogs are mammals too.
Cats and dogs are pets." with max_sentences = 2, summarize selects the
second and third sentences (scores 5 and 5, against 4 for the first) and
returns them in original order as
"Dogs are mammals too. Cats and dogs are pets.". -/
theorem C1_thm :
    summarizeStr "Cats are mammals. Dogs are mammals too. Cats and dogs are pets." 2 =
      "Dogs are mammals too. Cats and dogs are pets." := by
  decide

/-! ## Claim C2 -/

/-- Claim C2, counterexample: the page contains a recognizable content
container (div id="mw-content-text"), yet a paragraph appearing after the
container has closed is still collected, because the collection condition
tests the current depth counter (content_div_depth = 0 again), not whether
a container occurred anywhere on the page. -/
theorem C2_counterexample :
    (runParser [HEvent.startTag "div" [("id", "mw-content-text")],
      HEvent.endTag "div", HEvent.startTag "p" [],
      HEvent.dataEv "hello"]).paras = ["hello"] := by
  decide

/-- Claim C2, amended: a data event's text is appended to the collected
paragraphs iff, at that moment, the parser is not inside a skip or exclude
region, not inside a title tag, the paragraph flag is set, and the parser
is either inside the content region or the current content-container depth
is zero.  In particular paragraph text before the first container, or
after the container has closed, is collected. -/
theorem C2_thm (s : PState) (d : String) (hne : strTrim d ≠ "") :
    (handle_data s d).paras = s.paras ++ [strTrim d] ↔
      (s.skip_stack = [] ∧ s.exclude_stack = [] ∧ s.in_title = false ∧
        s.in_p = true ∧ (s.in_content = true ∨ s.content_div_depth = 0)) := by
  by_cases h1 : s.skip_stack = [] <;> by_cases h2 : s.exclude_stack = [] <;>
    by_cases h3 : s.in_title = true <;> by_cases h4 : s.in_p = true <;>
      by_cases h5 : s.in_content = true <;>
        by_cases h6 : s.content_div_depth = 0 <;>
  simp [handle_data, h1, h2, h3, h4, h5, h6, hne, List.isEmpty_iff]

/-- Witness for C2_thm at a concrete state and data string. -/
theorem C2_witness :
    (handle_data ⟨false, true, false, 0, [], [], [], []⟩ "hi").paras =
      [] ++ [strTrim "hi"] :=
  (C2_thm ⟨false, true, false, 0, [], [], [], []⟩ "hi" (by decide)).mpr
    (by refine ⟨rfl, rfl, rfl, rfl, Or.inr rfl⟩)

/-! ## Claim C3 -/

/-- Claim C3, counterexample: text structurally inside an excluded region
(a div with class navbox) is collected, because the close tag of a nested
non-excluded div pops the exclude stack prematurely — the exclude region
does not end only at the close tag matching the tag that opened it. -/
theorem C3_counterexample :
    (runParser [HEvent.startTag "div" [("class", "navbox")],
      HEvent.startTag "div" [], HEvent.endTag "div",
      HEvent.startTag "p" [], HEvent.dataEv "Boilerplate",
      HEvent.endTag "p", HEvent.endTag "div"]).paras = ["Boilerplate"] := by
  decide

/-- Claim C3, amended: no text is collected (into title or body) while the
exclude stack is nonempty; however the exclude region ends at the FIRST
close tag whose name equals the top of the exclude stack — including the
close tag of a nested, non-excluded element of the same name — so text
that is structurally inside an excluded region can be collected after such
a premature pop. -/
theorem C3_thm :
    (∀ (s : PState) (d : String), s.exclude_stack ≠ [] →
      handle_data s d = s) ∧
    (∀ (s : PState) (tag : String), ¬(tag = "script" ∨ tag = "style") →
      (handle_endtag s tag).exclude_stack =
        match s.exclude_stack with
        | t :: rest => if t = tag then rest else t :: rest
        | [] => []) := by
  constructor
  · exact handle_data_of_exclude
  · intro s tag h
    unfold handle_endtag
    rw [if_neg h]
    cases hx : s.exclude_stack with
    | nil =>
      simp [hx, apply_ite PState.exclude_stack]
    | cons t rest =>
      by_cases ht : t = tag <;>
        simp [hx, ht, apply_ite PState.exclude_stack]

/-- Witness for C3_thm at a concrete state: a close div pops the exclude
stack entry for the navbox div even though the region is still open. -/
theorem C3_witness :
    (handle_endtag ⟨false, false, false, 0, [], ["div", "table"], [], []⟩
      "div").exclude_stack = ["table"] := by
  have h := C3_thm.2 ⟨false, false, false, 0, [], ["div", "table"], [], []⟩
    "div" (by decide)
  simpa using h

/-! ## Claim C8 -/

/-- Claim C8: a script or style block (its start tag, the data events
inside it, and its matching end tag) leaves the parser state exactly
unchanged: its text is never collected into title or body, and its
presence never affects the exclude or content-region trackers, wherever
the block sits in the page. -/
theorem C8_thm (ev1 ev2 datas : List HEvent) (tag : String)
    (attrs : List (String × String)) (htag : tag = "script" ∨ tag = "style")
    (hd : ∀ e ∈ datas, ∃ d, e = HEvent.dataEv d) :
    runParser (ev1 ++ (HEvent.startTag tag attrs ::
        (datas ++ [HEvent.endTag tag])) ++ ev2) =
      runParser (ev1 ++ ev2) := by
  unfold runParser
  rw [runFrom_append, runFrom_append, runFrom_append]
  congr 1
  set s := runFrom initState ev1 with hs
  have hstart : handle_starttag s tag attrs =
      { s with skip_stack := tag :: s.skip_stack } := by
    unfold handle_starttag; rw [if_pos htag]
  show runFrom (handle_starttag s tag attrs)
      (datas ++ [HEvent.endTag tag]) = s
  rw [hstart, runFrom_append,
    runFrom_data_of_skip datas _ hd (by simp)]
  show handle_endtag { s with skip_stack := tag :: s.skip_stack } tag = s
  unfold handle_endtag
  rw [if_pos htag]
  simp

/-- Witness for C8_thm: a concrete script block with one data event. -/
theorem C8_witness :
    runParser ([] ++ (HEvent.startTag "script" [] ::
        ([HEvent.dataEv "var x"] ++ [HEvent.endTag "script"])) ++ []) =
      runParser ([] ++ []) :=
  C8_thm [] [] [HEvent.dataEv "var x"] "script" [] (Or.inl rfl)
    (fun _ he => ⟨"var x", List.mem_singleton.mp he⟩)

/-! ## Claim C9 -/

/-- Claim C9: process_one is total (never raises).  A fetch/parse failure
(modelled as an Except.error with message e) yields ok = false, empty
title, empty keywords, and the human-readable error marker in the summary
field; an empty extracted body yields ok = false, empty keywords, and the
fixed extraction-failed marker in place of the summary.  Each document's
result depends only on its own url and fetched value. -/
theorem C9_thm :
    (∀ (url e : String) (ms k : Nat),
      process_one url (Except.error e) ms k =
        ⟨url, "", "", "(에러: " ++ e ++ ")", false, []⟩) ∧
    (∀ (url : String) (evs : List HEvent) (ms k : Nat),
      get_text (runParser evs) = "" →
      process_one url (Except.ok evs) ms k =
        ⟨url, get_title (runParser evs), "", "(본문 추출 실패)", false, []⟩) := by
  constructor
  · intro url e ms k; rfl
  · intro url evs ms k h
    unfold process_one
    simp [h]

/-- Witness for C9_thm: the empty event stream extracts an empty body. -/
theorem C9_witness :
    process_one "u" (Except.ok []) 3 5 =
      ⟨"u", get_title (runParser []), "", "(본문 추출 실패)", false, []⟩ :=
  C9_thm.2 "u" [] 3 5 (by decide)

/-! ## Claim C10 -/

/-- Claim C10: every table start tag enters the exclude region regardless
of its class or id attributes (the tag-name check catches "table" before
the class-conditional infobox/navbox check, which is therefore
unreachable: excludedTag is true for "table" with any attrs), and no text
is collected while the exclude stack is nonempty. -/
theorem C10_thm :
    (∀ (s : PState) (attrs : List (String × String)),
      (handle_starttag s "table" attrs).exclude_stack =
        "table" :: s.exclude_stack) ∧
    (∀ attrs : List (String × String), excludedTag "table" attrs = true) ∧
    (∀ (s : PState) (d : String), s.exclude_stack ≠ [] →
      handle_data s d = s) := by
  have hexc : ∀ attrs : List (String × String),
      excludedTag "table" attrs = true := by
    intro attrs
    unfold excludedTag
    rw [if_pos (Or.inr (Or.inr (Or.inr rfl)))]
  refine ⟨?_, hexc, handle_data_of_exclude⟩
  intro s attrs
  unfold handle_starttag
  rw [if_neg (by decide), if_pos (hexc attrs)]

/-- Witness for C10_thm's conditional conjunct at a concrete state. -/
theorem C10_witness :
    handle_data ⟨false, false, false, 0, [], ["table"], [], []⟩ "inside" =
      ⟨false, false, false, 0, [], ["table"], [], []⟩ :=
  C10_thm.2.2 ⟨false, false, false, 0, [], ["table"], [], []⟩ "inside"
    (by decide)

/-! ## Claim C5 -/

/-- Claim C5: when the sentence count is at most max_sentences, summarize
returns exactly all sentences joined by single spaces; the joined string is
truncated (to budget - 1 characters plus an ellipsis) only when its length
exceeds the character budget, and is returned untruncated whenever the
budget is disabled (budget ≤ 0). -/
theorem C5_thm (budget : Int) (text : List Char) (m : Nat)
    (h : (split_sentences text).length ≤ m) :
    summarize budget text m =
      (if budget ≤ 0 then List.intercalate [' '] (split_sentences text)
       else if ((List.intercalate [' '] (split_sentences text)).length : Int) ≤ budget
       then List.intercalate [' '] (split_sentences text)
       else (List.intercalate [' '] (split_sentences text)).take
         (budget - 1).toNat ++ ['…']) := by
  unfold summarize
  by_cases he : (split_sentences text).isEmpty = true
  · have hnil : split_sentences text = [] := List.isEmpty_iff.mp he
    rw [hnil]
    have hic : List.intercalate [' '] ([] : List (List Char)) = [] := rfl
    by_cases hb : budget ≤ 0
    · simp [hb, hic]
    · have h0 : ((List.intercalate [' '] ([] : List (List Char))).length : Int) ≤ budget := by
        rw [hic]
        simp only [List.length_nil, Nat.cast_zero]
        omega
      simp [hb, h0, hic]
      omega
  · rw [if_neg he, if_pos h]
    unfold truncJoin truncSent
    rfl

/-- Witness for C5_thm on a one-sentence body within the budget. -/
theorem C5_witness :
    (split_sentences "Hi there.".data).length ≤ 3 ∧
    summarize 300 "Hi there.".data 3 =
      (if (300 : Int) ≤ 0 then List.intercalate [' '] (split_sentences "Hi there.".data)
       else if ((List.intercalate [' '] (split_sentences "Hi there.".data)).length : Int) ≤ 300
       then List.intercalate [' '] (split_sentences "Hi there.".data)
       else (List.intercalate [' '] (split_sentences "Hi there.".data)).take
         ((300 : Int) - 1).toNat ++ ['…']) :=
  ⟨by decide, C5_thm 300 "Hi there.".data 3 (by decide)⟩

/-! ## Claim C6 -/

theorem topIdx_sorted (text : List Char) (m : Nat) :
    List.Sorted (fun i j => i < j) (topIdx text m) := by
  have hnd1 : (rankedIdx text).Nodup :=
    ((List.perm_insertionSort (rdesc (sentScores text))
      (List.range (split_sentences text).length)).nodup_iff).mpr
      (List.nodup_range _)
  have hnd2 : ((rankedIdx text).take m).Nodup :=
    (List.take_sublist m _).nodup hnd1
  have hnd3 : (topIdx text m).Nodup :=
    ((List.perm_insertionSort (fun i j => i ≤ j)
      ((rankedIdx text).take m)).nodup_iff).mpr hnd2
  have hs : List.Sorted (fun i j => i ≤ j) (topIdx text m) :=
    List.sorted_insertionSort _ _
  exact (hs.and hnd3).imp (fun hab => lt_of_le_of_ne hab.1 hab.2)

/-- Claim C6: when the sentence count exceeds max_sentences, the summary is
the space-join of sentences taken at a strictly increasing list of indices
(the top-scoring indices re-sorted ascending), so the selected sentences
appear in the same relative order as in the original text. -/
theorem C6_thm (budget : Int) (text : List Char) (m : Nat)
    (h : m < (split_sentences text).length) :
    ∃ idx : List Nat, List.Sorted (fun i j => i < j) idx ∧
      summarize budget text m = List.intercalate [' ']
        (idx.map (fun i =>
          if 0 < budget then truncSent budget ((split_sentences text).getD i [])
          else (split_sentences text).getD i [])) := by
  refine ⟨topIdx text m, topIdx_sorted text m, ?_⟩
  unfold summarize
  have hne : ¬((split_sentences text).isEmpty = true) := by
    rw [List.isEmpty_iff]
    intro hnil
    rw [hnil] at h
    exact Nat.not_lt_zero m h
  rw [if_neg hne, if_neg (Nat.not_le.mpr h)]
  by_cases hb : 0 < budget
  · simp only [if_pos hb, List.map_map]
    rfl
  · simp only [if_neg hb]

/-- Witness for C6_thm on the three-sentence example body with max 2. -/
theorem C6_witness :
    2 < (split_sentences "Cats are mammals. Dogs are mammals too. Cats and dogs are pets.".data).length ∧
    ∃ idx : List Nat, List.Sorted (fun i j => i < j) idx ∧
      summarize 300 "Cats are mammals. Dogs are mammals too. Cats and dogs are pets.".data 2 =
        List.intercalate [' ']
          (idx.map (fun i =>
            if (0 : Int) < 300 then
              truncSent 300 ((split_sentences "Cats are mammals. Dogs are mammals too. Cats and dogs are pets.".data).getD i [])
            else (split_sentences "Cats are mammals. Dogs are mammals too. Cats and dogs are pets.".data).getD i [])) :=
  ⟨by decide,
    C6_thm 300 "Cats are mammals. Dogs are mammals too. Cats and dogs are pets.".data 2 (by decide)⟩

/-! ## Claim C7 -/

theorem firstDedupAux_subset :
    ∀ (l seen : List String) (x : String), x ∈ firstDedupAux seen l → x ∈ l := by
  intro l
  induction l with
  | nil => intro seen x hx; exact absurd hx (List.not_mem_nil x)
  | cons y ys ih =>
    intro seen x hx
    unfold firstDedupAux at hx
    by_cases hc : seen.contains y
    · rw [if_pos hc] at hx
      exact List.mem_cons_of_mem y (ih seen x hx)
    · rw [if_neg hc] at hx
      rcases List.mem_cons.mp hx with h | h
      · exact h ▸ List.mem_cons_self y ys
      · exact List.mem_cons_of_mem y (ih (y :: seen) x h)

theorem kwItems_spec (text : List Char) :
    ∀ x ∈ kwItems text,
      x.2 = (filteredTokens text).count x.1 ∧ x.1 ∈ filteredTokens text := by
  intro x hx
  unfold kwItems at hx
  obtain ⟨w, hw, rfl⟩ := List.mem_map.mp hx
  exact ⟨rfl, firstDedupAux_subset _ _ _ hw⟩

theorem keyword_take_mem (text : List Char) (k : Nat) :
    ∀ x ∈ (List.insertionSort byCountDesc (kwItems text)).take k,
      x ∈ kwItems text := by
  intro x hx
  have hx2 : x ∈ List.insertionSort byCountDesc (kwItems text) :=
    (List.take_sublist k _).subset hx
  exact (List.perm_insertionSort byCountDesc (kwItems text)).subset hx2

/-- Claim C7: keyword_topk returns a keyword list that contains no
stopword, has at most k entries, and is ordered by non-increasing
frequency (frequency = the word's count among the stopword-filtered token
occurrences of the text). -/
theorem C7_thm (text : List Char) (k : Nat) :
    (∀ w ∈ (keyword_topk text k).1, STOPWORDS.contains w = false) ∧
    (keyword_topk text k).1.length ≤ k ∧
    List.Pairwise
      (fun a b => (filteredTokens text).count b ≤ (filteredTokens text).count a)
      (keyword_topk text k).1 := by
  refine ⟨?_, ?_, ?_⟩
  · intro w hw
    obtain ⟨x, hx, rfl⟩ := List.mem_map.mp hw
    have h2 := (kwItems_spec text x (keyword_take_mem text k x hx)).2
    unfold filteredTokens at h2
    have h3 := (List.mem_filter.mp h2).2
    unfold notStop at h3
    simpa using h3
  · show (((List.insertionSort byCountDesc (kwItems text)).take k).map Prod.fst).length ≤ k
    rw [List.length_map, List.length_take]
    exact min_le_left _ _
  · have hs : List.Pairwise byCountDesc
        (List.insertionSort byCountDesc (kwItems text)) :=
      List.sorted_insertionSort byCountDesc (kwItems text)
    have hst : List.Pairwise byCountDesc
        ((List.insertionSort byCountDesc (kwItems text)).take k) :=
      List.Pairwise.sublist (List.take_sublist k _) hs
    show List.Pairwise _ (((List.insertionSort byCountDesc (kwItems text)).take k).map Prod.fst)
    rw [List.pairwise_map]
    refine List.Pairwise.imp_of_mem ?_ hst
    intro a b ha hb hr
    have ha2 := (kwItems_spec text a (keyword_take_mem text k a ha)).1
    have hb2 := (kwItems_spec text b (keyword_take_mem text k b hb)).1
    rw [← ha2, ← hb2]
    exact hr

/-- Witness for C7_thm: the top keyword of a concrete text is not a
stopword. -/
theorem C7_witness :
    "aa" ∈ (keyword_topk "aa bb aa cc bb aa the".data 2).1 ∧
    STOPWORDS.contains "aa" = false :=
  ⟨by decide, (C7_thm "aa bb aa cc bb aa the".data 2).1 "aa" (by decide)⟩

/-! ## Claim C4.
hasBracketSpan is the claim's notion of a bracketed span \x5b...\x5d (content
possibly empty); hasNonemptySpan requires nonempty content, which is what
the regex r"\[[^\]]+\]" actually removes.  GoodBr is the invariant of the
regex substitution's output: every surviving open bracket is either
immediately closed (an empty pair) or never closed at all. -/

def hasBracketSpan (p : List Char) : Prop :=
  ∃ a x b, p = a ++ '[' :: (x ++ ']' :: b) ∧ ']' ∉ x

def hasNonemptySpan (p : List Char) : Prop :=
  ∃ a x b, p = a ++ '[' :: (x ++ ']' :: b) ∧ x ≠ [] ∧ ']' ∉ x

def GoodBr (s : List Char) : Prop :=
  ∀ a b, s = a ++ '[' :: b → b.head? = some ']' ∨ ']' ∉ b

theorem goodBr_nil : GoodBr [] := by
  intro a b h
  cases a <;> simp at h

theorem goodBr_of_not_mem {s : List Char} (h : ']' ∉ s) : GoodBr s := by
  intro a b hab
  right
  intro hb
  rw [hab] at h
  exact h (List.mem_append.mpr (Or.inr (List.mem_cons_of_mem _ hb)))

theorem goodBr_cons {c : Char} {s : List Char} (hc : c ≠ '[') (h : GoodBr s) :
    GoodBr (c :: s) := by
  intro a b hab
  cases a with
  | nil =>
    simp at hab
    exact absurd hab.1 hc
  | cons y a2 =>
    rw [List.cons_append] at hab
    injection hab with h1 h2
    exact h a2 b h2

theorem goodBr_br {s : List Char} (hh : s.head? = some ']' ∨ ']' ∉ s)
    (h : GoodBr s) : GoodBr ('[' :: s) := by
  intro a b hab
  cases a with
  | nil =>
    simp at hab
    exact hab ▸ hh
  | cons y a2 =>
    rw [List.cons_append] at hab
    injection hab with h1 h2
    exact h a2 b h2

theorem goodBr_removeBrAux : ∀ (l : List Char) (mode : Option (List Char)),
    (∀ buf, mode = some buf → ']' ∉ buf) → GoodBr (removeBrAux l mode) := by
  intro l
  induction l with
  | nil =>
    intro mode h2
    cases mode with
    | none => exact goodBr_nil
    | some buf =>
      simp only [removeBrAux]
      refine goodBr_br (Or.inr ?_) (goodBr_of_not_mem ?_) <;>
        · rw [List.mem_reverse]
          exact h2 buf rfl
  | cons c rest ih =>
    intro mode h2
    cases mode with
    | none =>
      by_cases hcb : c = '['
      · simp only [removeBrAux, if_pos hcb]
        refine ih (some []) ?_
        intro buf hb
        injection hb with hb2
        rw [← hb2]
        exact List.not_mem_nil _
      · simp only [removeBrAux, if_neg hcb]
        exact goodBr_cons hcb (ih none (fun buf hb => by cases hb))
    | some buf =>
      have hbuf : ']' ∉ buf := h2 buf rfl
      by_cases hc : c = ']'
      · by_cases hb0 : buf = []
        · simp only [removeBrAux, if_pos hc, if_pos hb0]
          refine goodBr_br (Or.inl rfl) ?_
          exact goodBr_cons (by decide) (ih none (fun buf hb => by cases hb))
        · simp only [removeBrAux, if_pos hc, if_neg hb0]
          exact goodBr_cons (by decide) (ih none (fun buf hb => by cases hb))
      · simp only [removeBrAux, if_neg hc]
        refine ih (some (c :: buf)) ?_
        intro buf2 hb
        injection hb with hb2
        rw [← hb2]
        intro hm
        rcases List.mem_cons.mp hm with h | h
        · exact hc h.symm
        · exact hbuf h

theorem goodBr_removeBr (l : List Char) : GoodBr (removeBr l) :=
  goodBr_removeBrAux l none (fun buf hb => by cases hb)

theorem hasNonemptySpan_mono {p s : List Char}
    (hinf : ∃ u v, u ++ p ++ v = s) :
    hasNonemptySpan p → hasNonemptySpan s := by
  rintro ⟨a, x, b, rfl, hxne, hxr⟩
  obtain ⟨u, v, rfl⟩ := hinf
  exact ⟨u ++ a, x, b ++ v, by simp, hxne, hxr⟩

theorem not_span_of_goodBr {s : List Char} (h : GoodBr s) :
    ¬ hasNonemptySpan s := by
  rintro ⟨a, x, b, heq, hxne, hxr⟩
  rcases h a (x ++ ']' :: b) heq with hh | hh
  · cases x with
    | nil => exact hxne rfl
    | cons y x2 =>
      rw [List.cons_append] at hh
      simp at hh
      exact hxr (by rw [hh]; exact List.mem_cons_self _ _)
  · exact hh (List.mem_append.mpr (Or.inr (List.mem_cons_self ']' b)))

theorem sentSplit_parts : ∀ (l : List Char) (p2 : Option Char),
    ∃ h t, sentSplit p2 l = h :: t ∧ (∃ r, h ++ r = l) ∧
      ∀ q ∈ t, ∃ u v, u ++ q ++ v = l := by
  intro l
  induction l with
  | nil =>
    intro p2
    exact ⟨[], [], rfl, ⟨[], rfl⟩, fun q hq => absurd hq (List.not_mem_nil q)⟩
  | cons c rest ih =>
    intro p2
    cases rest with
    | nil =>
      exact ⟨[c], [], rfl, ⟨[], rfl⟩, fun q hq => absurd hq (List.not_mem_nil q)⟩
    | cons d rest2 =>
      obtain ⟨h, t, heq, ⟨r, hr⟩, hinf⟩ := ih (some c)
      by_cases hsp :
          ((isTerm c || (p2 = some '다' && c = '.')) && (isSpc d || d = '[')) = true
      · refine ⟨[c], h :: t, ?_, ⟨d :: rest2, rfl⟩, ?_⟩
        · simp only [sentSplit, if_pos hsp, heq]
        · intro q hq
          rcases List.mem_cons.mp hq with rfl | hq2
          · exact ⟨[c], r, by simpa using congrArg (fun l => c :: l) hr⟩
          · obtain ⟨u, v, huv⟩ := hinf q hq2
            exact ⟨c :: u, v, by rw [← huv]; simp⟩
      · refine ⟨c :: h, t, ?_,
          ⟨r, by simpa using congrArg (fun l => c :: l) hr⟩, ?_⟩
        · simp only [sentSplit, if_neg hsp, heq, consHead]
        · intro q hq
          obtain ⟨u, v, huv⟩ := hinf q hq
          exact ⟨c :: u, v, by rw [← huv]; simp⟩

theorem sentSplit_within {l q : List Char} {p2 : Option Char}
    (hq : q ∈ sentSplit p2 l) : ∃ u v, u ++ q ++ v = l := by
  obtain ⟨h, t, heq, ⟨r, hr⟩, hinf⟩ := sentSplit_parts l p2
  rw [heq] at hq
  rcases List.mem_cons.mp hq with rfl | hq2
  · exact ⟨[], r, by simpa using hr⟩
  · exact hinf q hq2

theorem trimWs_within (l : List Char) : ∃ u v, u ++ trimWs l ++ v = l := by
  refine ⟨l.takeWhile isSpc,
    ((l.dropWhile isSpc).reverse.takeWhile isSpc).reverse, ?_⟩
  have h1 : l.takeWhile isSpc ++ l.dropWhile isSpc = l :=
    List.takeWhile_append_dropWhile isSpc l
  have h2 : (l.dropWhile isSpc).reverse.takeWhile isSpc ++
      (l.dropWhile isSpc).reverse.dropWhile isSpc = (l.dropWhile isSpc).reverse :=
    List.takeWhile_append_dropWhile isSpc _
  have h3 : l.dropWhile isSpc =
      ((l.dropWhile isSpc).reverse.dropWhile isSpc).reverse ++
        ((l.dropWhile isSpc).reverse.takeWhile isSpc).reverse := by
    have h4 := congrArg List.reverse h2
    rw [List.reverse_append, List.reverse_reverse] at h4
    exact h4.symm
  conv_rhs => rw [← h1, h3]
  simp [trimWs, List.append_assoc]

theorem split_sentences_within {text p : List Char}
    (hp : p ∈ split_sentences text) :
    ∃ q, p = trimWs q ∧
      ∃ u v, u ++ q ++ v = removeBr (trimWs (collapseWs text)) := by
  simp only [split_sentences] at hp
  split at hp
  · exact absurd hp (List.not_mem_nil p)
  · have hp2 := (List.mem_filter.mp hp).1
    obtain ⟨q, hq, rfl⟩ := List.mem_map.mp hp2
    exact ⟨q, rfl, sentSplit_within hq⟩

/-- Claim C4, counterexample: the regex that strips bracketed spans
requires nonempty content, so an empty bracket pair survives into the
returned sentence "Hello world \x5b\x5d." — a bracketed span of the claimed
form with empty content is not removed. -/
theorem C4_counterexample :
    "Hello world [].".data ∈ split_sentences "Hello world []. Bye.".data ∧
    hasBracketSpan "Hello world [].".data :=
  ⟨by decide, ⟨"Hello world ".data, [], ['.'], by decide, List.not_mem_nil _⟩⟩

/-- Claim C4, amended: split_sentences removes every bracketed span with
nonempty bracket-free content before segmenting, so no returned sentence
fragment contains such a nonempty span; bracket pairs with empty content
are not removed. -/
theorem C4_thm (text p : List Char) (hp : p ∈ split_sentences text) :
    ¬ hasNonemptySpan p := by
  intro hspan
  obtain ⟨q, rfl, hinf⟩ := split_sentences_within hp
  have h1 : hasNonemptySpan q :=
    hasNonemptySpan_mono (trimWs_within q) hspan
  have h2 : hasNonemptySpan (removeBr (trimWs (collapseWs text))) :=
    hasNonemptySpan_mono hinf h1
  exact not_span_of_goodBr (goodBr_removeBr _) h2

/-- Witness for C4_thm: a concrete returned fragment has no nonempty
bracketed span. -/
theorem C4_witness : ¬ hasNonemptySpan "Bye.".data :=
  C4_thm "Hello world []. Bye.".data "Bye.".data (by decide)
